import Mathlib

/-!
Verification of the order-execution engine of `src/api/webhook.js`
(single-symbol futures trading executor).

The JavaScript source is shallowly embedded: numbers are rationals (`ℚ`),
a decimal step size carries its string representation as a mantissa and a
digit count, the exchange is an oracle (`Env`) answering each endpoint, the
process-wide metadata cache and the call counters are threaded explicitly
(`St`), and every function returns, next to its value, the list of exchange
calls it issued (`Trace`).
-/

namespace Webhook

/-- A decimal number as written by the source's string representation:
the value is `m / 10 ^ d`.  For a step size such as `0.001` (whose
JavaScript `toString` is `"0.001"`) this is `m = 1`, `d = 3`; for `1` it is
`m = 1`, `d = 0`. -/
structure DecNum where
  m : Nat
  d : Nat
deriving DecidableEq

/-- Rational value of a decimal step. -/
def DecNum.val (x : DecNum) : ℚ := (x.m : ℚ) / 10 ^ x.d

/-- The last `w` decimal digits of `n`, left-padded with zeros: exactly `w`
characters.  Faithful rendering of `n` itself when `n < 10 ^ w`. -/
def padDigits : Nat → Nat → List Char
  | _, 0 => []
  | n, w + 1 => padDigits (n / 10) w ++ [Char.ofNat (48 + n % 10)]

/-- Fuel-driven count of decimal digits of `n` (`1` for zero). -/
def numDigitsF : Nat → Nat → Nat
  | 0, _ => 1
  | fuel + 1, n => if n < 10 then 1 else numDigitsF fuel (n / 10) + 1

def numDigits (n : Nat) : Nat := numDigitsF n n

/-- All decimal digits of `n` (one `'0'` for zero). -/
def natDigits (n : Nat) : List Char := padDigits n (numDigits n)

/-- The sign prefix of a rendered integer. -/
def signChars (n : Int) : List Char := if n < 0 then ['-'] else []

/-- The characters of `n / 10 ^ d` rendered with exactly `d` decimals, as
JavaScript's `toFixed(d)` renders a value that is exactly representable
with `d` decimals. -/
def renderDecChars (n : Int) (d : Nat) : List Char :=
  if d = 0 then signChars n ++ natDigits n.natAbs
  else signChars n ++ natDigits (n.natAbs / 10 ^ d) ++ '.' :: padDigits (n.natAbs % 10 ^ d) d

def renderDec (n : Int) (d : Nat) : String := ⟨renderDecChars n d⟩

/-- Numeric value computed by `roundStep`: `Math.floor(qty / step) * step`
(source line 30). -/
def roundStepVal (qty : ℚ) (step : DecNum) : ℚ :=
  (⌊qty / step.val⌋ : ℚ) * step.val

/-- `roundStep(qty, step)` (source lines 28-31): the precision is the digit
count of `step`'s fractional part, and the result is
`(Math.floor(qty / step) * step).toFixed(prec)`.  Since
`Math.floor(qty / step) * step = (⌊qty / step⌋ * m) / 10 ^ d`, the rendered
string is that numerator with `d` decimals. -/
def roundStep (qty : ℚ) (step : DecNum) : String :=
  renderDec (⌊qty / step.val⌋ * (step.m : Int)) step.d

/-- `x` is an integer multiple of `s`. -/
def IsMulOf (x s : ℚ) : Prop := ∃ k : Int, x = (k : ℚ) * s

def decimalsAux (l : List Char) : Nat :=
  if '.' ∈ l then (l.reverse.takeWhile (fun c => c != '.')).length else 0

/-- Number of digits after the decimal point of a rendered number
(`0` when there is no point). -/
def decimalsOf (s : String) : Nat := decimalsAux s.data

/-! ### Data model of the engine -/

/-- Per-symbol quantity constraints extracted from `exchangeInfo`
(source lines 38-41): the `LOT_SIZE` step size and minimum quantity. -/
structure SymbolFilter where
  stepSize : DecNum
  minQty : ℚ
deriving DecidableEq

/-- A classified exchange rejection: `code` is the string the source's
regex extracts from the thrown message (`"unknown"` when absent), `msg`
the thrown message itself. -/
structure ExchangeError where
  code : String
  msg : String
deriving DecidableEq

/-- Result of one `/fapi/v1/order` submission. -/
inductive Outcome where
  | ok (res : String)
  | err (e : ExchangeError)
deriving DecidableEq

/-- An order request (source lines 125-131 and 141-146).  `quantity` is the
numeric value of the field (the source interchangeably stores a number or
its `roundStep` decimal string; the engine only ever uses the value).
`reduceOnly` models presence of the `reduceOnly: "true"` key; `price` and
`timeInForce` model presence of those keys. -/
structure OrderParams where
  symbol : String
  side : String
  type : String
  quantity : ℚ
  reduceOnly : Bool
  price : Option ℚ
  timeInForce : Option String
deriving DecidableEq

/-- Process state threaded through a run: the `CACHED_INFO` map (source
line 5) and counters indexing the oracle's successive answers. -/
structure St where
  cache : List (String × SymbolFilter)
  nOrders : Nat
  nRecomputes : Nat
deriving DecidableEq

/-- The exchange as an oracle: `posAmt` is the `positionRisk` entry the
handler reads (outer `none` = no entry, inner `none` = entry without a
`positionAmt` field), `submit` answers the n-th order submission,
`balance`/`mark` answer the n-th `recomputeQty` invocation's account and
position fetches, `info` answers an `exchangeInfo` fetch. -/
structure Env where
  posAmt : Option (Option ℚ)
  submit : Nat → OrderParams → Outcome
  balance : Nat → ℚ
  mark : Nat → ℚ
  info : String → SymbolFilter

/-- One network call to the exchange. -/
inductive Call where
  | positionRisk (symbol : String)
  | account
  | exchangeInfo (symbol : String)
  | leverage (symbol : String) (lev : Nat)
  | order (p : OrderParams) (o : Outcome)
deriving DecidableEq

abbrev Trace := List Call

def lookupCache (c : List (String × SymbolFilter)) (s : String) : Option SymbolFilter :=
  match c with
  | [] => none
  | (s', f) :: rest => if s' = s then some f else lookupCache rest s

/-- `getExchangeInfo` (source lines 33-44): answer from the cache when the
symbol is present, otherwise fetch once, store and return. -/
def getExchangeInfo (env : Env) (st : St) (symbol : String) :
    SymbolFilter × St × Trace :=
  match lookupCache st.cache symbol with
  | some f => (f, st, [])
  | none =>
    let f := env.info symbol
    (f, { st with cache := (symbol, f) :: st.cache }, [Call.exchangeInfo symbol])

/-- `recomputeQty` (source lines 46-57): fetch a fresh wallet balance and a
fresh mark price, apply the 0.998 safety multiplier, divide by the mark
price and round down to the symbol's step.  Returns `(qtyNew, mark)`. -/
def recomputeQty (env : Env) (st : St) (symbol : String) :
    (ℚ × ℚ) × St × Trace :=
  let bal := env.balance st.nRecomputes
  let mark := env.mark st.nRecomputes
  let st1 : St := { st with nRecomputes := st.nRecomputes + 1 }
  let gi := getExchangeInfo env st1 symbol
  let qty := roundStepVal (bal * (998 / 1000) / mark) gi.1.stepSize
  ((qty, mark), gi.2.1, Call.account :: Call.positionRisk symbol :: gi.2.2)

/-- The corrective transform of `safeOrder`'s catch block (source lines
85-97), keyed by the extracted error code.  The rate-limit codes only
sleep, which has no observable effect here; any other code leaves the
request untouched. -/
def applyCorrection (env : Env) (st : St) (p : OrderParams) (code : String) :
    OrderParams × St × Trace :=
  if code = "-2019" then
    let r := recomputeQty env st p.symbol
    ({ p with quantity := r.1.1 }, r.2.1, r.2.2)
  else if code = "-1013" ∨ code = "-1111" then
    let r := getExchangeInfo env st p.symbol
    ({ p with quantity := roundStepVal p.quantity r.1.stepSize }, r.2.1, r.2.2)
  else if code = "-2021" then
    ({ p with type := "MARKET", price := none, timeInForce := none }, st, [])
  else (p, st, [])

/-- Result of `safeOrder`: the loop returns the submission result on
success, throws the last error after the last failing attempt, and falls
off the loop (JavaScript `undefined`) only when it never iterates. -/
inductive SafeResult where
  | success (r : String)
  | failure (e : ExchangeError)
  | noResult
deriving DecidableEq

/-- The body of `safeOrder`'s retry loop (source lines 74-105), by
remaining iterations.  A failing attempt applies its corrective transform
(mutating the request in place) before the remaining-attempts check; the
last failing attempt rethrows its own error. -/
def safeOrderLoop (env : Env) : Nat → St → OrderParams → SafeResult × St × Trace
  | 0, st, _ => (.noResult, st, [])
  | fuel + 1, st, p =>
    let o := env.submit st.nOrders p
    let st1 : St := { st with nOrders := st.nOrders + 1 }
    match o with
    | .ok r => (.success r, st1, [Call.order p (.ok r)])
    | .err e =>
      let c := applyCorrection env st1 p e.code
      if fuel = 0 then (.failure e, c.2.1, Call.order p (.err e) :: c.2.2)
      else
        let rest := safeOrderLoop env fuel c.2.1 c.1
        (rest.1, rest.2.1, Call.order p (.err e) :: (c.2.2 ++ rest.2.2))

/-- `safeOrder(params, maxTry = 3)` (source line 73): the loop runs while
`attempt <= maxTry`, so it iterates `max maxTry 0` times. -/
def safeOrder (env : Env) (st : St) (p : OrderParams) (maxTry : Int) :
    SafeResult × St × Trace :=
  safeOrderLoop env maxTry.toNat st p

/-- The order submissions of a trace, in order, with their outcomes. -/
def orders (t : Trace) : List (OrderParams × Outcome) :=
  t.filterMap fun c => match c with
    | .order p o => some (p, o)
    | _ => none

/-- Inbound webhook body `{symbol, signal}`; a field is `none` when absent. -/
structure Payload where
  symbol : Option String
  signal : Option String
deriving DecidableEq

structure Request where
  method : String
  body : Option Payload

/-- `signal.toUpperCase()`: ASCII upper-casing, character by character. -/
def upperStr (s : String) : String := ⟨s.data.map Char.toUpper⟩

/-- Validation of the inbound payload (source lines 115-119): a missing or
empty (JavaScript-falsy) field is rejected, then the upper-cased signal
must be BUY or SELL. -/
def payloadOrErr (b : Payload) : Except String (String × String) :=
  match b.symbol, b.signal with
  | some sym, some sig =>
    if sym = "" ∨ sig = "" then .error "Payload incomplete"
    else if upperStr sig = "BUY" ∨ upperStr sig = "SELL" then .ok (sym, upperStr sig)
    else .error "Signal must be BUY or SELL"
  | _, _ => .error "Payload incomplete"

/-- What the handler replies (source lines 110-111, 155, 158). -/
inductive HandlerResult where
  | methodNotAllowed
  | fatal (msg : String)
  | ok (order : Option String)
deriving DecidableEq

/-- The closing order built at source lines 125-131 for a nonzero signed
position amount. -/
def closeReq (symbol : String) (a : ℚ) : OrderParams :=
  ⟨symbol, if 0 < a then "SELL" else "BUY", "MARKET", |a|, true, none, none⟩

/-- `parseFloat(pos[0]?.positionAmt || "0")` (source line 123): a missing
entry or missing field is read as zero. -/
def posAmtOf (env : Env) : ℚ :=
  match env.posAmt with
  | some (some a) => a
  | _ => 0

/-- Steps 2-5 of the handler (source lines 134-155): set leverage to 1,
recompute the quantity, submit the new order with retry.  The best-effort
forward of the payload to the logging sink (lines 149-153) has no
observable effect on the run and is omitted. -/
def handlerRest (env : Env) (st : St) (symbol side : String) (tAcc : Trace) :
    HandlerResult × St × Trace :=
  let rq := recomputeQty env st symbol
  let newP : OrderParams := ⟨symbol, side, "MARKET", rq.1.1, false, none, none⟩
  let so := safeOrder env rq.2.1 newP 3
  let t := tAcc ++ Call.leverage symbol 1 :: (rq.2.2 ++ so.2.2)
  match so.1 with
  | .success r => (.ok (some r), so.2.1, t)
  | .noResult => (.ok none, so.2.1, t)
  | .failure e => (.fatal e.msg, so.2.1, t)

/-- The webhook handler (source lines 109-160): method check, payload
validation, close of any open position, then `handlerRest`.  A thrown
error anywhere is caught at line 156 and reported as a fatal result. -/
def handler (env : Env) (st : St) (req : Request) : HandlerResult × St × Trace :=
  if req.method ≠ "POST" then (.methodNotAllowed, st, [])
  else
    match payloadOrErr (req.body.getD ⟨none, none⟩) with
    | .error m => (.fatal m, st, [])
    | .ok (symbol, side) =>
      if posAmtOf env = 0 then handlerRest env st symbol side [Call.positionRisk symbol]
      else
        let so := safeOrder env st (closeReq symbol (posAmtOf env)) 3
        match so.1 with
        | .failure e => (.fatal e.msg, so.2.1, Call.positionRisk symbol :: so.2.2)
        | _ => handlerRest env so.2.1 symbol side (Call.positionRisk symbol :: so.2.2)

/-! ### Trace predicates used by the claims -/

/-- Is this call an `exchangeInfo` fetch for `s`? -/
def isInfoFor (s : String) (c : Call) : Bool :=
  match c with
  | .exchangeInfo s' => s' == s
  | _ => false

/-- Number of `exchangeInfo` network fetches for `s` in a trace. -/
def countInfo (s : String) (t : Trace) : Nat := t.countP (isInfoFor s)

def cachedB (st : St) (s : String) : Bool := (lookupCache st.cache s).isSome

/-- Cache discipline of a step from `st` to `st'` issuing `t`: at most one
fetch per symbol, none for an already-cached symbol (whose entry survives
unchanged), and a fetched symbol ends up cached. -/
def InfoInv (st st' : St) (t : Trace) : Prop :=
  ∀ s, countInfo s t ≤ 1
    ∧ (cachedB st s = true →
        countInfo s t = 0 ∧ lookupCache st'.cache s = lookupCache st.cache s)
    ∧ (1 ≤ countInfo s t → cachedB st' s = true)

/-- Scans a trace and checks that every `account` fetch (the start of a
`recomputeQty` sizing calculation) is preceded by a leverage call; the
flag records whether a leverage call was already seen. -/
def levBeforeSizing : Bool → Trace → Bool
  | _, [] => true
  | seen, c :: t =>
    match c with
    | .leverage _ _ => levBeforeSizing true t
    | .account => seen && levBeforeSizing seen t
    | _ => levBeforeSizing seen t

/-- `true` when the call is not a reduce-only order submission. -/
def noReduceOrder (c : Call) : Bool :=
  match c with
  | .order p _ => !p.reduceOnly
  | _ => true

/-- The request of an order-submission call. -/
def callOrderReq (c : Call) : Option OrderParams :=
  match c with
  | .order p _ => some p
  | _ => none

/-- `true` when every submission outcome in the list is a failure. -/
def allErr (l : List (OrderParams × Outcome)) : Bool :=
  l.all fun a => match a.2 with
    | .err _ => true
    | .ok _ => false

/-! ### Concrete inputs for witnesses and counterexamples -/

def st0 : St := ⟨[], 0, 0⟩

/-- Step size `0.001`, minimum quantity `0`. -/
def filt1 : SymbolFilter := ⟨⟨1, 3⟩, 0⟩

/-- Step size `1`, minimum quantity `0`. -/
def filtInt : SymbolFilter := ⟨⟨1, 0⟩, 0⟩

/-- A benign exchange: an open long position of `1`, every submission
filled, balance `1000`, mark price `499`, integer step. -/
def envOk : Env :=
  ⟨some (some 1), fun _ _ => Outcome.ok "FILLED", fun _ => 1000, fun _ => 499,
    fun _ => filtInt⟩

/-- An exchange that rejects the first submission with code `-2019` and
fills every later one; balance `1000` and mark `499`, so the recomputed
quantity is `1000 * 0.998 / 499 = 2` at integer step. -/
def envMargin : Env :=
  ⟨some (some 1),
    fun n _ => if n = 0 then Outcome.err ⟨"-2019", "margin is insufficient"⟩
      else Outcome.ok "FILLED",
    fun _ => 1000, fun _ => 499, fun _ => filtInt⟩

/-- An exchange that rejects the first submission with code `-2021` and
fills every later one. -/
def envMatch : Env :=
  ⟨some (some 1),
    fun n _ => if n = 0 then Outcome.err ⟨"-2021", "order would immediately trigger"⟩
      else Outcome.ok "FILLED",
    fun _ => 1000, fun _ => 499, fun _ => filtInt⟩

/-- An exchange whose first `positionRisk` entry is missing. -/
def envNoPos : Env :=
  ⟨none, fun _ _ => Outcome.ok "FILLED", fun _ => 1000, fun _ => 499, fun _ => filtInt⟩

/-- A market order for quantity `2`. -/
def pQty2 : OrderParams := ⟨"BTCUSDT", "BUY", "MARKET", 2, false, none, none⟩

/-- A limit order carrying price and time-in-force keys. -/
def pLimit : OrderParams := ⟨"BTCUSDT", "BUY", "LIMIT", 1, false, some 5, some "GTC"⟩

/-- A well-formed inbound request. -/
def reqOk : Request := ⟨"POST", some ⟨some "BTCUSDT", some "buy"⟩⟩

/-- An inbound request whose signal is neither BUY nor SELL. -/
def reqBad : Request := ⟨"POST", some ⟨some "BTCUSDT", some "hold"⟩⟩


/-! ## Theorems -/

/-! ### Rendering lemmas -/

theorem padDigits_length (n w : Nat) : (padDigits n w).length = w := by
  induction w generalizing n with
  | zero => rfl
  | succ w ih => simp [padDigits, ih]

theorem digitOfNat_ne_dot (n : Nat) : Char.ofNat (48 + n % 10) ≠ '.' := by
  have h : n % 10 < 10 := Nat.mod_lt _ (by norm_num)
  set r := n % 10 with hr
  interval_cases r <;> decide

theorem padDigits_ne_dot (n w : Nat) : ∀ c ∈ padDigits n w, c ≠ '.' := by
  induction w generalizing n with
  | zero => simp [padDigits]
  | succ w ih =>
    intro c hc
    simp only [padDigits, List.mem_append, List.mem_singleton] at hc
    rcases hc with hc | hc
    · exact ih _ c hc
    · subst hc; exact digitOfNat_ne_dot n

theorem natDigits_ne_dot (n : Nat) : ∀ c ∈ natDigits n, c ≠ '.' :=
  padDigits_ne_dot n _

theorem signChars_ne_dot (n : Int) : ∀ c ∈ signChars n, c ≠ '.' := by
  unfold signChars
  split <;> simp

theorem takeWhile_append_of_all (p : Char → Bool) (a b : List Char)
    (h : ∀ x ∈ a, p x = true) :
    (a ++ b).takeWhile p = a ++ b.takeWhile p := by
  induction a with
  | nil => simp
  | cons x a ih =>
    have hx : p x = true := h x (by simp)
    simp [List.takeWhile, hx, ih fun y hy => h y (by simp [hy])]

theorem decimalsAux_no_dot (l : List Char) (h : ∀ c ∈ l, c ≠ '.') :
    decimalsAux l = 0 := by
  have hm : '.' ∉ l := fun hmem => h _ hmem rfl
  simp [decimalsAux, hm]

theorem decimalsOf_renderDec (n : Int) (d : Nat) :
    decimalsOf (renderDec n d) = d := by
  rcases d with _ | e
  · -- no decimal point at all
    show decimalsAux (renderDecChars n 0) = 0
    apply decimalsAux_no_dot
    intro c hc
    have hm : c ∈ signChars n ++ natDigits n.natAbs := by
      simpa [renderDecChars] using hc
    rcases List.mem_append.mp hm with h | h
    · exact signChars_ne_dot n c h
    · exact natDigits_ne_dot _ c h
  · have hne : (e + 1 : Nat) ≠ 0 := Nat.succ_ne_zero e
    show decimalsAux (renderDecChars n (e + 1)) = e + 1
    simp only [renderDecChars, if_neg hne]
    set b := padDigits (n.natAbs % 10 ^ (e + 1)) (e + 1) with hb
    set a := natDigits (n.natAbs / 10 ^ (e + 1)) with ha
    have hdot : '.' ∈ signChars n ++ a ++ '.' :: b := by simp
    have hbdot : ∀ c ∈ b.reverse, (c != '.') = true := by
      intro c hc
      have := padDigits_ne_dot (n.natAbs % 10 ^ (e + 1)) (e + 1) c
        (List.mem_reverse.mp hc)
      simpa using this
    have hrev : (signChars n ++ a ++ '.' :: b).reverse
        = b.reverse ++ '.' :: (a.reverse ++ (signChars n).reverse) := by
      simp
    rw [decimalsAux, if_pos hdot, hrev,
      takeWhile_append_of_all _ _ _ hbdot]
    simp [List.takeWhile, hb, padDigits_length]

/-! ### roundStep: concrete evaluations used by the spec -/

theorem roundStep_example_small :
    roundStep (12345 / 100000 : ℚ) ⟨1, 3⟩ = "0.123" := by
  have h : ⌊(12345 / 100000 : ℚ) / DecNum.val ⟨1, 3⟩⌋ * ((1 : Nat) : Int) = 123 := by
    norm_num [DecNum.val]
  rw [roundStep, h]
  decide

theorem roundStep_example_one : roundStep (1 : ℚ) ⟨1, 0⟩ = "1" := by
  have h : ⌊(1 : ℚ) / DecNum.val ⟨1, 0⟩⌋ * ((1 : Nat) : Int) = 1 := by
    norm_num [DecNum.val]
  rw [roundStep, h]
  decide

theorem DecNum.val_pos (step : DecNum) (h : 0 < step.m) : 0 < step.val :=
  div_pos (by exact_mod_cast h) (pow_pos (by norm_num) _)

/-! ### Basic trace lemmas -/

theorem orders_append (t₁ t₂ : Trace) :
    orders (t₁ ++ t₂) = orders t₁ ++ orders t₂ := by
  simp [orders]

theorem getExchangeInfo_orders (env : Env) (st : St) (s : String) :
    orders (getExchangeInfo env st s).2.2 = [] := by
  rcases hl : lookupCache st.cache s with _ | f <;>
    simp [getExchangeInfo, hl, orders]

theorem getExchangeInfo_nOrders (env : Env) (st : St) (s : String) :
    (getExchangeInfo env st s).2.1.nOrders = st.nOrders := by
  rcases hl : lookupCache st.cache s with _ | f <;>
    simp [getExchangeInfo, hl]

theorem getExchangeInfo_nRecomputes (env : Env) (st : St) (s : String) :
    (getExchangeInfo env st s).2.1.nRecomputes = st.nRecomputes := by
  rcases hl : lookupCache st.cache s with _ | f <;>
    simp [getExchangeInfo, hl]

theorem recomputeQty_orders (env : Env) (st : St) (s : String) :
    orders (recomputeQty env st s).2.2 = [] := by
  have h := getExchangeInfo_orders env { st with nRecomputes := st.nRecomputes + 1 } s
  simp only [recomputeQty, orders] at h ⊢
  simpa [List.filterMap] using h

theorem recomputeQty_nOrders (env : Env) (st : St) (s : String) :
    (recomputeQty env st s).2.1.nOrders = st.nOrders := by
  have h := getExchangeInfo_nOrders env { st with nRecomputes := st.nRecomputes + 1 } s
  simpa [recomputeQty] using h

theorem applyCorrection_orders (env : Env) (st : St) (p : OrderParams) (c : String) :
    orders (applyCorrection env st p c).2.2 = [] := by
  unfold applyCorrection
  split_ifs <;>
    first
      | exact recomputeQty_orders _ _ _
      | exact getExchangeInfo_orders _ _ _
      | rfl

theorem applyCorrection_reduceOnly (env : Env) (st : St) (p : OrderParams) (c : String) :
    ((applyCorrection env st p c).1).reduceOnly = p.reduceOnly := by
  unfold applyCorrection
  split_ifs <;> rfl

theorem applyCorrection_nOrders (env : Env) (st : St) (p : OrderParams) (c : String) :
    ((applyCorrection env st p c).2.1).nOrders = st.nOrders := by
  unfold applyCorrection
  split_ifs <;>
    simp [recomputeQty_nOrders, getExchangeInfo_nOrders]

/-! ### safeOrder loop lemmas -/

theorem safeOrderLoop_orders_head (env : Env) (fuel : Nat) (st : St) (p : OrderParams)
    (h : 1 ≤ fuel) :
    (orders (safeOrderLoop env fuel st p).2.2).head? =
      some (p, env.submit st.nOrders p) := by
  rcases fuel with _ | m
  · omega
  rcases hsub : env.submit st.nOrders p with r | e
  · simp [safeOrderLoop, hsub, orders]
  · rcases Nat.eq_zero_or_pos m with hm | hm
    · subst hm
      simp [safeOrderLoop, hsub, orders]
    · have hm' : m ≠ 0 := by omega
      simp [safeOrderLoop, hsub, hm', orders]

theorem safeOrderLoop_orders_second (env : Env) (fuel : Nat) (st : St)
    (p : OrderParams) (e : ExchangeError) (h2 : 2 ≤ fuel)
    (hsub : env.submit st.nOrders p = .err e) :
    (orders (safeOrderLoop env fuel st p).2.2).get? 1 =
      some ((applyCorrection env { st with nOrders := st.nOrders + 1 } p e.code).1,
        env.submit (st.nOrders + 1)
          (applyCorrection env { st with nOrders := st.nOrders + 1 } p e.code).1) := by
  rcases fuel with _ | m
  · omega
  have hm : m ≠ 0 := by omega
  have hstep : safeOrderLoop env (m + 1) st p =
      ((safeOrderLoop env m
          (applyCorrection env { st with nOrders := st.nOrders + 1 } p e.code).2.1
          (applyCorrection env { st with nOrders := st.nOrders + 1 } p e.code).1).1,
        (safeOrderLoop env m
          (applyCorrection env { st with nOrders := st.nOrders + 1 } p e.code).2.1
          (applyCorrection env { st with nOrders := st.nOrders + 1 } p e.code).1).2.1,
        Call.order p (.err e) ::
          ((applyCorrection env { st with nOrders := st.nOrders + 1 } p e.code).2.2 ++
            (safeOrderLoop env m
              (applyCorrection env { st with nOrders := st.nOrders + 1 } p e.code).2.1
              (applyCorrection env { st with nOrders := st.nOrders + 1 } p e.code).1).2.2)) := by
    simp [safeOrderLoop, hsub, hm]
  rw [hstep]
  have hord : ∀ B : Trace,
      orders (Call.order p (.err e) ::
        ((applyCorrection env { st with nOrders := st.nOrders + 1 } p e.code).2.2 ++ B)) =
      (p, Outcome.err e) :: orders B := by
    intro B
    have : orders ((applyCorrection env { st with nOrders := st.nOrders + 1 } p e.code).2.2
        ++ B) = orders B := by
      rw [orders_append, applyCorrection_orders]
      rfl
    calc orders (Call.order p (.err e) ::
          ((applyCorrection env { st with nOrders := st.nOrders + 1 } p e.code).2.2 ++ B))
        = (p, Outcome.err e) ::
            orders ((applyCorrection env { st with nOrders := st.nOrders + 1 } p e.code).2.2
              ++ B) := by
          simp [orders]
      _ = (p, Outcome.err e) :: orders B := by rw [this]
  rw [hord]
  have hhead := safeOrderLoop_orders_head env m
    (applyCorrection env { st with nOrders := st.nOrders + 1 } p e.code).2.1
    (applyCorrection env { st with nOrders := st.nOrders + 1 } p e.code).1
    (by omega)
  have hn : (applyCorrection env { st with nOrders := st.nOrders + 1 } p e.code).2.1.nOrders
      = st.nOrders + 1 :=
    applyCorrection_nOrders env _ p e.code
  rw [hn] at hhead
  rw [List.get?_cons_succ, List.get?_zero, hhead]

theorem orders_corr_cons (env : Env) (st : St) (p : OrderParams) (cd : String)
    (o : Outcome) (B : Trace) :
    orders (Call.order p o :: ((applyCorrection env st p cd).2.2 ++ B))
      = (p, o) :: orders B := by
  calc orders (Call.order p o :: ((applyCorrection env st p cd).2.2 ++ B))
      = (p, o) :: orders ((applyCorrection env st p cd).2.2 ++ B) := by
        simp [orders]
    _ = (p, o) :: orders B := by
        rw [orders_append, applyCorrection_orders]
        rfl

theorem getLast?_cons_of_ne_nil {α : Type} (a : α) (l : List α) (h : l ≠ []) :
    (a :: l).getLast? = l.getLast? := by
  rcases l with _ | ⟨b, t⟩
  · exact absurd rfl h
  · exact List.getLast?_cons_cons ..

theorem dropLast_cons_of_ne_nil {α : Type} (a : α) (l : List α) (h : l ≠ []) :
    (a :: l).dropLast = a :: l.dropLast := by
  rcases l with _ | ⟨b, t⟩
  · exact absurd rfl h
  · rfl

/-- Core behaviour of the retry loop: it submits at most `fuel` times, it
falls through without result exactly when it never iterates, on a terminal
failure every attempt failed and the propagated error is the last
attempt's, and on success the successful attempt is the last one recorded,
all earlier ones having failed. -/
theorem safeOrderLoop_retry_spec (env : Env) :
    ∀ (fuel : Nat) (st : St) (p : OrderParams),
      (orders (safeOrderLoop env fuel st p).2.2).length ≤ fuel
      ∧ ((safeOrderLoop env fuel st p).1 = .noResult ↔ fuel = 0)
      ∧ (orders (safeOrderLoop env fuel st p).2.2 = [] ↔ fuel = 0)
      ∧ (∀ e, (safeOrderLoop env fuel st p).1 = .failure e →
          allErr (orders (safeOrderLoop env fuel st p).2.2) = true
          ∧ ((orders (safeOrderLoop env fuel st p).2.2).getLast?).map Prod.snd
              = some (Outcome.err e))
      ∧ (∀ r, (safeOrderLoop env fuel st p).1 = .success r →
          ((orders (safeOrderLoop env fuel st p).2.2).getLast?).map Prod.snd
              = some (Outcome.ok r)
          ∧ allErr ((orders (safeOrderLoop env fuel st p).2.2).dropLast) = true) := by
  intro fuel
  induction fuel with
  | zero =>
    intro st p
    refine ⟨by simp [safeOrderLoop, orders], by simp [safeOrderLoop],
      by simp [safeOrderLoop, orders], ?_, ?_⟩
    · intro e he
      simp [safeOrderLoop] at he
    · intro r hr
      simp [safeOrderLoop] at hr
  | succ m ih =>
    intro st p
    rcases hsub : env.submit st.nOrders p with r | e
    · -- first submission succeeds
      have hstep : safeOrderLoop env (m + 1) st p =
          (.success r, { st with nOrders := st.nOrders + 1 }, [Call.order p (.ok r)]) := by
        simp [safeOrderLoop, hsub]
      rw [hstep]
      refine ⟨by simp [orders], by simp, by simp [orders], ?_, ?_⟩
      · intro e he
        simp at he
      · intro r' hr'
        simp at hr'
        subst hr'
        simp [orders, allErr]
    · -- first submission fails
      rcases Nat.eq_zero_or_pos m with hm | hm
      · subst hm
        have hstep : safeOrderLoop env 1 st p =
            (.failure e,
              (applyCorrection env { st with nOrders := st.nOrders + 1 } p e.code).2.1,
              Call.order p (.err e) ::
                (applyCorrection env { st with nOrders := st.nOrders + 1 } p e.code).2.2) := by
          simp [safeOrderLoop, hsub]
        rw [hstep]
        have hord : orders (Call.order p (.err e) ::
            (applyCorrection env { st with nOrders := st.nOrders + 1 } p e.code).2.2)
            = [(p, Outcome.err e)] := by
          have h := orders_corr_cons env { st with nOrders := st.nOrders + 1 } p e.code
            (Outcome.err e) []
          simpa using h
        rw [hord]
        refine ⟨by simp, by simp, by simp, ?_, ?_⟩
        · intro e' he'
          simp at he'
          subst he'
          simp [allErr]
        · intro r' hr'
          simp at hr'
      · have hm' : m ≠ 0 := by omega
        have hstep : safeOrderLoop env (m + 1) st p =
            ((safeOrderLoop env m
                (applyCorrection env { st with nOrders := st.nOrders + 1 } p e.code).2.1
                (applyCorrection env { st with nOrders := st.nOrders + 1 } p e.code).1).1,
              (safeOrderLoop env m
                (applyCorrection env { st with nOrders := st.nOrders + 1 } p e.code).2.1
                (applyCorrection env { st with nOrders := st.nOrders + 1 } p e.code).1).2.1,
              Call.order p (.err e) ::
                ((applyCorrection env { st with nOrders := st.nOrders + 1 } p e.code).2.2 ++
                  (safeOrderLoop env m
                    (applyCorrection env { st with nOrders := st.nOrders + 1 } p e.code).2.1
                    (applyCorrection env { st with nOrders := st.nOrders + 1 } p e.code).1).2.2)) := by
          simp [safeOrderLoop, hsub, hm']
        rw [hstep]
        rw [orders_corr_cons]
        obtain ⟨ih1, ih2, ih3, ih4, ih5⟩ := ih
          (applyCorrection env { st with nOrders := st.nOrders + 1 } p e.code).2.1
          (applyCorrection env { st with nOrders := st.nOrders + 1 } p e.code).1
        have hne : orders (safeOrderLoop env m
            (applyCorrection env { st with nOrders := st.nOrders + 1 } p e.code).2.1
            (applyCorrection env { st with nOrders := st.nOrders + 1 } p e.code).1).2.2 ≠ [] := by
          intro h
          exact hm' (ih3.mp h)
        refine ⟨by simpa using Nat.succ_le_succ ih1, ?_, by simp, ?_, ?_⟩
        · constructor
          · intro h
            exact absurd (ih2.mp h) hm'
          · intro h
            omega
        · intro e' he'
          obtain ⟨hAll, hLast⟩ := ih4 e' he'
          constructor
          · simp [allErr] at hAll ⊢
            exact hAll
          · rw [getLast?_cons_of_ne_nil _ _ hne]
            exact hLast
        · intro r' hr'
          obtain ⟨hLast, hAll⟩ := ih5 r' hr'
          constructor
          · rw [getLast?_cons_of_ne_nil _ _ hne]
            exact hLast
          · rw [dropLast_cons_of_ne_nil _ _ hne]
            simp [allErr] at hAll ⊢
            exact hAll

/-! ### Order-event and reduce-only propagation lemmas -/

theorem order_mem_orders (t : Trace) (q : OrderParams) (o : Outcome)
    (h : Call.order q o ∈ t) : (q, o) ∈ orders t := by
  simp only [orders, List.mem_filterMap]
  exact ⟨Call.order q o, h, rfl⟩

theorem safeOrderLoop_orders_reduceOnly (env : Env) :
    ∀ (fuel : Nat) (st : St) (p q : OrderParams) (o : Outcome),
      Call.order q o ∈ (safeOrderLoop env fuel st p).2.2 →
      q.reduceOnly = p.reduceOnly := by
  intro fuel
  induction fuel with
  | zero =>
    intro st p q o h
    simp [safeOrderLoop] at h
  | succ m ih =>
    intro st p q o h
    rcases hsub : env.submit st.nOrders p with r | e
    · simp [safeOrderLoop, hsub] at h
      rw [h.1]
    · have hcorr : Call.order q o ∉
          (applyCorrection env { st with nOrders := st.nOrders + 1 } p e.code).2.2 := by
        intro hmem
        have := order_mem_orders _ q o hmem
        rw [applyCorrection_orders] at this
        simp at this
      rcases Nat.eq_zero_or_pos m with hm | hm
      · subst hm
        simp [safeOrderLoop, hsub] at h
        rcases h with h | h
        · rw [h.1]
        · exact absurd h hcorr
      · have hm' : m ≠ 0 := by omega
        simp [safeOrderLoop, hsub, hm'] at h
        rcases h with h | h | h
        · rw [h.1]
        · exact absurd h hcorr
        · have := ih (applyCorrection env { st with nOrders := st.nOrders + 1 } p e.code).2.1
            (applyCorrection env { st with nOrders := st.nOrders + 1 } p e.code).1 q o h
          rw [this, applyCorrection_reduceOnly]

/-! ### Account-call and leverage-call occurrence lemmas -/

theorem getExchangeInfo_no_account (env : Env) (st : St) (s : String) :
    Call.account ∉ (getExchangeInfo env st s).2.2 := by
  rcases hl : lookupCache st.cache s with _ | f <;> simp [getExchangeInfo, hl]

theorem applyCorrection_no_account (env : Env) (st : St) (p : OrderParams)
    (c : String) (hc : c ≠ "-2019") :
    Call.account ∉ (applyCorrection env st p c).2.2 := by
  unfold applyCorrection
  rw [if_neg hc]
  split_ifs
  · exact getExchangeInfo_no_account env st p.symbol
  · simp
  · simp

/-- Under an exchange that never answers `-2019` to a reduce-only request,
the retry loop started on a reduce-only request never fetches the account
(never recomputes a quantity). -/
theorem safeOrderLoop_no_account (env : Env)
    (hro : ∀ n q e, q.reduceOnly = true → env.submit n q = .err e → e.code ≠ "-2019") :
    ∀ (fuel : Nat) (st : St) (p : OrderParams), p.reduceOnly = true →
      Call.account ∉ (safeOrderLoop env fuel st p).2.2 := by
  intro fuel
  induction fuel with
  | zero =>
    intro st p hp
    simp [safeOrderLoop]
  | succ m ih =>
    intro st p hp
    rcases hsub : env.submit st.nOrders p with r | e
    · simp [safeOrderLoop, hsub]
    · have hcode : e.code ≠ "-2019" := hro st.nOrders p e hp hsub
      have hcorr := applyCorrection_no_account env
        { st with nOrders := st.nOrders + 1 } p e.code hcode
      rcases Nat.eq_zero_or_pos m with hm | hm
      · subst hm
        simp [safeOrderLoop, hsub]
        exact hcorr
      · have hm' : m ≠ 0 := by omega
        simp [safeOrderLoop, hsub, hm']
        refine ⟨hcorr, ?_⟩
        refine ih (applyCorrection env { st with nOrders := st.nOrders + 1 } p e.code).2.1
          (applyCorrection env { st with nOrders := st.nOrders + 1 } p e.code).1 ?_
        rw [applyCorrection_reduceOnly]
        exact hp

theorem getExchangeInfo_no_leverage (env : Env) (st : St) (s s' : String) (l : Nat) :
    Call.leverage s' l ∉ (getExchangeInfo env st s).2.2 := by
  rcases hl : lookupCache st.cache s with _ | f <;> simp [getExchangeInfo, hl]

theorem recomputeQty_no_leverage (env : Env) (st : St) (s s' : String) (l : Nat) :
    Call.leverage s' l ∉ (recomputeQty env st s).2.2 := by
  have h := getExchangeInfo_no_leverage env
    { st with nRecomputes := st.nRecomputes + 1 } s s' l
  simp [recomputeQty]
  exact h

theorem applyCorrection_no_leverage (env : Env) (st : St) (p : OrderParams)
    (c : String) (s' : String) (l : Nat) :
    Call.leverage s' l ∉ (applyCorrection env st p c).2.2 := by
  unfold applyCorrection
  split_ifs
  · exact recomputeQty_no_leverage env st p.symbol s' l
  · exact getExchangeInfo_no_leverage env st p.symbol s' l
  · simp
  · simp

theorem safeOrderLoop_no_leverage (env : Env) :
    ∀ (fuel : Nat) (st : St) (p : OrderParams) (s' : String) (l : Nat),
      Call.leverage s' l ∉ (safeOrderLoop env fuel st p).2.2 := by
  intro fuel
  induction fuel with
  | zero =>
    intro st p s' l
    simp [safeOrderLoop]
  | succ m ih =>
    intro st p s' l
    rcases hsub : env.submit st.nOrders p with r | e
    · simp [safeOrderLoop, hsub]
    · rcases Nat.eq_zero_or_pos m with hm | hm
      · subst hm
        simp [safeOrderLoop, hsub]
        exact applyCorrection_no_leverage env _ p e.code s' l
      · have hm' : m ≠ 0 := by omega
        simp [safeOrderLoop, hsub, hm']
        exact ⟨applyCorrection_no_leverage env _ p e.code s' l, ih _ _ s' l⟩

/-- The first recorded call of a running retry loop is the submission of
the initial request. -/
theorem safeOrderLoop_trace_head (env : Env) (fuel : Nat) (st : St) (p : OrderParams)
    (h : 1 ≤ fuel) :
    ∃ r1 : Trace, (safeOrderLoop env fuel st p).2.2
      = Call.order p (env.submit st.nOrders p) :: r1 := by
  rcases fuel with _ | m
  · omega
  rcases hsub : env.submit st.nOrders p with r | e
  · exact ⟨[], by simp [safeOrderLoop, hsub]⟩
  · rcases Nat.eq_zero_or_pos m with hm | hm
    · subst hm
      refine ⟨(applyCorrection env { st with nOrders := st.nOrders + 1 } p e.code).2.2, ?_⟩
      simp [safeOrderLoop, hsub]
    · have hm' : m ≠ 0 := by omega
      refine ⟨(applyCorrection env { st with nOrders := st.nOrders + 1 } p e.code).2.2 ++
        (safeOrderLoop env m
          (applyCorrection env { st with nOrders := st.nOrders + 1 } p e.code).2.1
          (applyCorrection env { st with nOrders := st.nOrders + 1 } p e.code).1).2.2, ?_⟩
      simp [safeOrderLoop, hsub, hm']

/-- A first attempt failing with code `-2019` puts an account fetch into
the loop's trace. -/
theorem safeOrderLoop_account_mem (env : Env) (m : Nat) (st : St) (p : OrderParams)
    (e : ExchangeError) (hsub : env.submit st.nOrders p = .err e)
    (hc : e.code = "-2019") :
    Call.account ∈ (safeOrderLoop env (m + 1) st p).2.2 := by
  have hcorr : Call.account ∈
      (applyCorrection env { st with nOrders := st.nOrders + 1 } p e.code).2.2 := by
    rw [hc]
    simp [applyCorrection, recomputeQty]
  rcases Nat.eq_zero_or_pos m with hm | hm
  · subst hm
    simp [safeOrderLoop, hsub]
    exact hcorr
  · have hm' : m ≠ 0 := by omega
    simp [safeOrderLoop, hsub, hm']
    exact Or.inl hcorr

/-! ### levBeforeSizing lemmas -/

theorem levBeforeSizing_true (t : Trace) : levBeforeSizing true t = true := by
  induction t with
  | nil => rfl
  | cons c t ih => cases c <;> simp [levBeforeSizing, ih]

theorem levBeforeSizing_no_account (t : Trace) (h : Call.account ∉ t) (b : Bool) :
    levBeforeSizing b t = true := by
  induction t with
  | nil => rfl
  | cons c t ih =>
    have hc : Call.account ∉ t := fun hm => h (List.mem_cons_of_mem _ hm)
    cases c with
    | leverage s l =>
      show levBeforeSizing true t = true
      exact levBeforeSizing_true t
    | account => exact absurd (List.mem_cons_self _ _) h
    | positionRisk s => exact ih hc
    | exchangeInfo s => exact ih hc
    | order p o => exact ih hc

theorem levBeforeSizing_append (t₁ t₂ : Trace) (h : Call.account ∉ t₁)
    (h₂ : levBeforeSizing false t₂ = true) :
    levBeforeSizing false (t₁ ++ t₂) = true := by
  induction t₁ with
  | nil => simpa
  | cons c t ih =>
    have hc : Call.account ∉ t := fun hm => h (List.mem_cons_of_mem _ hm)
    cases c with
    | leverage s l =>
      show levBeforeSizing true (t ++ t₂) = true
      exact levBeforeSizing_true _
    | account => exact absurd (List.mem_cons_self _ _) h
    | positionRisk s => exact ih hc
    | exchangeInfo s => exact ih hc
    | order p o => exact ih hc

theorem levBeforeSizing_false_of_early_account :
    ∀ t₁ t₂ : Trace, (∀ s l, Call.leverage s l ∉ t₁) → Call.account ∈ t₁ →
      levBeforeSizing false (t₁ ++ t₂) = false := by
  intro t₁
  induction t₁ with
  | nil =>
    intro t₂ _ hacc
    simp at hacc
  | cons c t ih =>
    intro t₂ hlev hacc
    cases c with
    | leverage s l => exact absurd (List.mem_cons_self _ _) (hlev s l)
    | account => simp [levBeforeSizing]
    | positionRisk s =>
      refine ih t₂ (fun s' l' hm => hlev s' l' (List.mem_cons_of_mem _ hm)) ?_
      rcases List.mem_cons.mp hacc with h | h
      · exact absurd h.symm (by simp)
      · exact h
    | exchangeInfo s =>
      refine ih t₂ (fun s' l' hm => hlev s' l' (List.mem_cons_of_mem _ hm)) ?_
      rcases List.mem_cons.mp hacc with h | h
      · exact absurd h.symm (by simp)
      · exact h
    | order p o =>
      refine ih t₂ (fun s' l' hm => hlev s' l' (List.mem_cons_of_mem _ hm)) ?_
      rcases List.mem_cons.mp hacc with h | h
      · exact absurd h.symm (by simp)
      · exact h

/-! ### Handler unfolding lemmas -/

theorem handler_error_eq (env : Env) (st : St) (req : Request) (m : String)
    (hm : req.method = "POST")
    (hp : payloadOrErr (req.body.getD ⟨none, none⟩) = .error m) :
    handler env st req = (.fatal m, st, []) := by
  unfold handler
  rw [if_neg (by simp [hm]), hp]

theorem handler_eq_of_ok (env : Env) (st : St) (req : Request) (symbol side : String)
    (hm : req.method = "POST")
    (hp : payloadOrErr (req.body.getD ⟨none, none⟩) = .ok (symbol, side)) :
    handler env st req =
      (if posAmtOf env = 0 then
        handlerRest env st symbol side [Call.positionRisk symbol]
      else
        match (safeOrder env st (closeReq symbol (posAmtOf env)) 3).1 with
        | .failure e => (.fatal e.msg,
            (safeOrder env st (closeReq symbol (posAmtOf env)) 3).2.1,
            Call.positionRisk symbol ::
              (safeOrder env st (closeReq symbol (posAmtOf env)) 3).2.2)
        | _ => handlerRest env
            (safeOrder env st (closeReq symbol (posAmtOf env)) 3).2.1 symbol side
            (Call.positionRisk symbol ::
              (safeOrder env st (closeReq symbol (posAmtOf env)) 3).2.2)) := by
  unfold handler
  rw [if_neg (by simp [hm]), hp]

theorem all_noReduce_of_orders_nil (t : Trace) (h : orders t = []) :
    t.all noReduceOrder = true := by
  rw [List.all_eq_true]
  intro c hc
  cases c <;> try rfl
  case order q o =>
    have hq := order_mem_orders t q o hc
    rw [h] at hq
    simp at hq

theorem safeOrderLoop_all_noReduce (env : Env) (fuel : Nat) (st : St) (p : OrderParams)
    (h : p.reduceOnly = false) :
    ((safeOrderLoop env fuel st p).2.2).all noReduceOrder = true := by
  rw [List.all_eq_true]
  intro c hc
  cases c <;> try rfl
  case order q o =>
    have hq := safeOrderLoop_orders_reduceOnly env fuel st p q o hc
    simp [noReduceOrder, hq, h]

theorem handlerRest_trace (env : Env) (st : St) (symbol side : String) (tAcc : Trace) :
    (handlerRest env st symbol side tAcc).2.2
      = tAcc ++ Call.leverage symbol 1 ::
          ((recomputeQty env st symbol).2.2 ++
            (safeOrder env (recomputeQty env st symbol).2.1
              ⟨symbol, side, "MARKET", (recomputeQty env st symbol).1.1, false, none, none⟩
              3).2.2) := by
  simp only [handlerRest]
  split <;> rfl

/-- On the no-open-position path, every submitted order is non-reduce-only
and the leverage call is issued. -/
theorem handlerRest_flat_spec (env : Env) (st : St) (symbol side : String) :
    (handlerRest env st symbol side [Call.positionRisk symbol]).2.2.all noReduceOrder = true
    ∧ Call.leverage symbol 1 ∈
        (handlerRest env st symbol side [Call.positionRisk symbol]).2.2 := by
  rw [handlerRest_trace]
  constructor
  · simp only [List.all_append, List.all_cons, List.singleton_append, Bool.and_eq_true]
    refine ⟨rfl, rfl, ?_, ?_⟩
    · exact all_noReduce_of_orders_nil _ (recomputeQty_orders env st symbol)
    · exact safeOrderLoop_all_noReduce env _ _ _ rfl
  · simp

theorem payloadOrErr_error_cases (b : Payload)
    (hv : b.symbol = none ∨ b.symbol = some "" ∨ b.signal = none ∨ b.signal = some ""
        ∨ ∀ sg, b.signal = some sg → upperStr sg ≠ "BUY" ∧ upperStr sg ≠ "SELL") :
    payloadOrErr b = .error "Payload incomplete"
      ∨ payloadOrErr b = .error "Signal must be BUY or SELL" := by
  rcases b with ⟨sym, sig⟩
  rcases sym with _ | sym <;> rcases sig with _ | sig <;> try exact Or.inl rfl
  by_cases h0 : sym = "" ∨ sig = ""
  · left
    unfold payloadOrErr
    dsimp only
    rw [if_pos h0]
  by_cases h1 : upperStr sig = "BUY" ∨ upperStr sig = "SELL"
  · exfalso
    rcases hv with hv | hv | hv | hv | hv
    · exact Option.noConfusion hv
    · exact h0 (Or.inl (Option.some.inj hv))
    · exact Option.noConfusion hv
    · exact h0 (Or.inr (Option.some.inj hv))
    · have hb := hv sig rfl
      rcases h1 with h1 | h1
      · exact hb.1 h1
      · exact hb.2 h1
  · right
    unfold payloadOrErr
    dsimp only
    rw [if_neg h0, if_neg h1]

/-! ### Cache-discipline (InfoInv) lemmas -/

theorem countInfo_nil (s : String) : countInfo s [] = 0 := rfl

theorem countInfo_append (s : String) (t₁ t₂ : Trace) :
    countInfo s (t₁ ++ t₂) = countInfo s t₁ + countInfo s t₂ := by
  simp [countInfo, List.countP_append]

theorem infoInv_nil (st : St) : InfoInv st st [] := by
  intro s
  exact ⟨by simp [countInfo], fun h => ⟨rfl, rfl⟩, fun h => by simp [countInfo] at h⟩

theorem infoInv_cache_eq (st st' : St) (h : st'.cache = st.cache) :
    InfoInv st st' [] := by
  intro s
  refine ⟨by simp [countInfo], fun h' => ⟨rfl, by rw [h]⟩, ?_⟩
  intro h'
  simp [countInfo] at h'

theorem infoInv_comp (st₁ st₂ st₃ : St) (t₁ t₂ : Trace)
    (h1 : InfoInv st₁ st₂ t₁) (h2 : InfoInv st₂ st₃ t₂) :
    InfoInv st₁ st₃ (t₁ ++ t₂) := by
  intro s
  obtain ⟨a1, b1, c1⟩ := h1 s
  obtain ⟨a2, b2, c2⟩ := h2 s
  refine ⟨?_, ?_, ?_⟩
  · rw [countInfo_append]
    rcases Nat.eq_zero_or_pos (countInfo s t₁) with h | h
    · rw [h]
      simpa using a2
    · have hz2 : countInfo s t₂ = 0 := (b2 (c1 h)).1
      omega
  · intro hc
    obtain ⟨hz1, he1⟩ := b1 hc
    have hc2 : cachedB st₂ s = true := by
      unfold cachedB at hc ⊢
      rw [he1]
      exact hc
    obtain ⟨hz2, he2⟩ := b2 hc2
    exact ⟨by rw [countInfo_append, hz1, hz2], by rw [he2, he1]⟩
  · intro h
    rw [countInfo_append] at h
    rcases Nat.eq_zero_or_pos (countInfo s t₂) with h2' | h2'
    · have h1' : 1 ≤ countInfo s t₁ := by omega
      have hc2 := c1 h1'
      have he := (b2 hc2).2
      unfold cachedB at hc2 ⊢
      rw [he]
      exact hc2
    · exact c2 h2'

theorem infoInv_cons_nonInfo (c : Call) (hc : ∀ s, isInfoFor s c = false)
    (st st' : St) (t : Trace) (h : InfoInv st st' t) : InfoInv st st' (c :: t) := by
  intro s
  obtain ⟨a, b, cc⟩ := h s
  have hcount : countInfo s (c :: t) = countInfo s t := by
    simp [countInfo, List.countP_cons, hc s]
  exact ⟨by rw [hcount]; exact a,
    fun h' => ⟨by rw [hcount]; exact (b h').1, (b h').2⟩,
    fun h' => cc (by rwa [hcount] at h')⟩

theorem getExchangeInfo_infoInv (env : Env) (st : St) (s₀ : String) :
    InfoInv st (getExchangeInfo env st s₀).2.1 (getExchangeInfo env st s₀).2.2 := by
  rcases hl : lookupCache st.cache s₀ with _ | f
  · intro s
    simp only [getExchangeInfo, hl]
    by_cases hs : s₀ = s
    · subst hs
      refine ⟨by simp [countInfo, isInfoFor], ?_, ?_⟩
      · intro hcached
        simp [cachedB, hl] at hcached
      · intro _
        simp [cachedB, lookupCache]
    · refine ⟨by simp [countInfo, isInfoFor, hs], ?_, ?_⟩
      · intro hc
        refine ⟨by simp [countInfo, isInfoFor, hs], ?_⟩
        simp [lookupCache, hs]
      · intro h1
        simp [countInfo, isInfoFor, hs] at h1
  · simp only [getExchangeInfo, hl]
    exact infoInv_nil st

theorem recomputeQty_infoInv (env : Env) (st : St) (s₀ : String) :
    InfoInv st (recomputeQty env st s₀).2.1 (recomputeQty env st s₀).2.2 := by
  have h1 : InfoInv st { st with nRecomputes := st.nRecomputes + 1 } [] :=
    infoInv_cache_eq _ _ rfl
  have h2 := getExchangeInfo_infoInv env { st with nRecomputes := st.nRecomputes + 1 } s₀
  have h3 := infoInv_comp _ _ _ _ _ h1 h2
  rw [List.nil_append] at h3
  have h4 := infoInv_cons_nonInfo (Call.positionRisk s₀) (fun s => rfl) _ _ _ h3
  have h5 := infoInv_cons_nonInfo Call.account (fun s => rfl) _ _ _ h4
  exact h5

theorem applyCorrection_infoInv (env : Env) (st : St) (p : OrderParams) (c : String) :
    InfoInv st (applyCorrection env st p c).2.1 (applyCorrection env st p c).2.2 := by
  unfold applyCorrection
  split_ifs
  · exact recomputeQty_infoInv env st p.symbol
  · exact getExchangeInfo_infoInv env st p.symbol
  · exact infoInv_nil st
  · exact infoInv_nil st

theorem safeOrderLoop_infoInv (env : Env) :
    ∀ (fuel : Nat) (st : St) (p : OrderParams),
      InfoInv st (safeOrderLoop env fuel st p).2.1 (safeOrderLoop env fuel st p).2.2 := by
  intro fuel
  induction fuel with
  | zero =>
    intro st p
    exact infoInv_nil st
  | succ m ih =>
    intro st p
    rcases hsub : env.submit st.nOrders p with r | e
    · have hstep : safeOrderLoop env (m + 1) st p =
          (.success r, { st with nOrders := st.nOrders + 1 }, [Call.order p (.ok r)]) := by
        simp [safeOrderLoop, hsub]
      rw [hstep]
      exact infoInv_cons_nonInfo (Call.order p (.ok r)) (fun s => rfl) _ _ _
        (infoInv_cache_eq _ _ rfl)
    · have hc1 : InfoInv st { st with nOrders := st.nOrders + 1 } [] :=
        infoInv_cache_eq _ _ rfl
      have hcorr := applyCorrection_infoInv env
        { st with nOrders := st.nOrders + 1 } p e.code
      have hbase := infoInv_comp _ _ _ _ _ hc1 hcorr
      rw [List.nil_append] at hbase
      rcases Nat.eq_zero_or_pos m with hm | hm
      · subst hm
        have hstep : safeOrderLoop env 1 st p =
            (.failure e,
              (applyCorrection env { st with nOrders := st.nOrders + 1 } p e.code).2.1,
              Call.order p (.err e) ::
                (applyCorrection env { st with nOrders := st.nOrders + 1 } p e.code).2.2) := by
          simp [safeOrderLoop, hsub]
        rw [hstep]
        exact infoInv_cons_nonInfo (Call.order p (.err e)) (fun s => rfl) _ _ _ hbase
      · have hm' : m ≠ 0 := by omega
        have hstep : safeOrderLoop env (m + 1) st p =
            ((safeOrderLoop env m
                (applyCorrection env { st with nOrders := st.nOrders + 1 } p e.code).2.1
                (applyCorrection env { st with nOrders := st.nOrders + 1 } p e.code).1).1,
              (safeOrderLoop env m
                (applyCorrection env { st with nOrders := st.nOrders + 1 } p e.code).2.1
                (applyCorrection env { st with nOrders := st.nOrders + 1 } p e.code).1).2.1,
              Call.order p (.err e) ::
                ((applyCorrection env { st with nOrders := st.nOrders + 1 } p e.code).2.2 ++
                  (safeOrderLoop env m
                    (applyCorrection env { st with nOrders := st.nOrders + 1 } p e.code).2.1
                    (applyCorrection env { st with nOrders := st.nOrders + 1 } p e.code).1).2.2)) := by
          simp [safeOrderLoop, hsub, hm']
        rw [hstep]
        refine infoInv_cons_nonInfo (Call.order p (.err e)) (fun s => rfl) _ _ _ ?_
        exact infoInv_comp _ _ _ _ _ hbase (ih _ _)

theorem handlerRest_st (env : Env) (st : St) (symbol side : String) (tAcc : Trace) :
    (handlerRest env st symbol side tAcc).2.1
      = (safeOrder env (recomputeQty env st symbol).2.1
          ⟨symbol, side, "MARKET", (recomputeQty env st symbol).1.1, false, none, none⟩
          3).2.1 := by
  simp only [handlerRest]
  split <;> rfl

theorem handlerRest_infoInv (env : Env) (st : St) (symbol side : String) (tAcc : Trace) :
    InfoInv st (handlerRest env st symbol side tAcc).2.1
      (Call.leverage symbol 1 ::
        ((recomputeQty env st symbol).2.2 ++
          (safeOrder env (recomputeQty env st symbol).2.1
            ⟨symbol, side, "MARKET", (recomputeQty env st symbol).1.1, false, none, none⟩
            3).2.2)) := by
  rw [handlerRest_st]
  refine infoInv_cons_nonInfo (Call.leverage symbol 1) (fun s => rfl) _ _ _ ?_
  exact infoInv_comp _ _ _ _ _ (recomputeQty_infoInv env st symbol)
    (safeOrderLoop_infoInv env _ _ _)

theorem handler_infoInv (env : Env) (st : St) (req : Request) :
    InfoInv st (handler env st req).2.1 (handler env st req).2.2 := by
  by_cases hm : req.method = "POST"
  · rcases hp : payloadOrErr (req.body.getD ⟨none, none⟩) with m | ⟨symbol, side⟩
    · rw [handler_error_eq env st req m hm hp]
      exact infoInv_nil st
    · by_cases hz : posAmtOf env = 0
      · rw [handler_eq_of_ok env st req symbol side hm hp, if_pos hz,
          handlerRest_trace, handlerRest_st]
        rw [List.singleton_append]
        exact infoInv_cons_nonInfo (Call.positionRisk symbol) (fun s => rfl) _ _ _
          (infoInv_cons_nonInfo (Call.leverage symbol 1) (fun s => rfl) _ _ _
            (infoInv_comp _ _ _ _ _ (recomputeQty_infoInv env st symbol)
              (safeOrderLoop_infoInv env _ _ _)))
      · rw [handler_eq_of_ok env st req symbol side hm hp, if_neg hz]
        have hclose := safeOrderLoop_infoInv env ((3 : Int).toNat) st
          (closeReq symbol (posAmtOf env))
        cases hso : (safeOrder env st (closeReq symbol (posAmtOf env)) 3).1 with
        | failure e =>
          exact infoInv_cons_nonInfo (Call.positionRisk symbol) (fun s => rfl) _ _ _
            hclose
        | success r =>
          rw [handlerRest_trace, handlerRest_st]
          refine infoInv_comp _ _ _ _ _
            (infoInv_cons_nonInfo (Call.positionRisk symbol) (fun s => rfl) _ _ _
              hclose) ?_
          refine infoInv_cons_nonInfo (Call.leverage symbol 1) (fun s => rfl) _ _ _ ?_
          exact infoInv_comp _ _ _ _ _ (recomputeQty_infoInv env _ symbol)
            (safeOrderLoop_infoInv env _ _ _)
        | noResult =>
          rw [handlerRest_trace, handlerRest_st]
          refine infoInv_comp _ _ _ _ _
            (infoInv_cons_nonInfo (Call.positionRisk symbol) (fun s => rfl) _ _ _
              hclose) ?_
          refine infoInv_cons_nonInfo (Call.leverage symbol 1) (fun s => rfl) _ _ _ ?_
          exact infoInv_comp _ _ _ _ _ (recomputeQty_infoInv env _ symbol)
            (safeOrderLoop_infoInv env _ _ _)
  · unfold handler
    rw [if_pos hm]
    exact infoInv_nil st

/-! ### Claim theorems -/

/-- C1: for every order request and every `maxTry` (default 3), `safeOrder`
performs at most `maxTry` order submissions; if it terminates in failure,
every attempt failed and the propagated `ExchangeError` is exactly the last
attempt's; if some attempt succeeds, its result is returned immediately:
the successful submission is the last one recorded and every earlier
submission failed. -/
theorem safeOrder_retry_contract (env : Env) (st : St) (p : OrderParams)
    (maxTry : Int) :
    (orders (safeOrder env st p maxTry).2.2).length ≤ maxTry.toNat
    ∧ ((safeOrder env st p maxTry).1 = .noResult ↔ maxTry.toNat = 0)
    ∧ (∀ e, (safeOrder env st p maxTry).1 = .failure e →
        allErr (orders (safeOrder env st p maxTry).2.2) = true
        ∧ ((orders (safeOrder env st p maxTry).2.2).getLast?).map Prod.snd
            = some (Outcome.err e))
    ∧ (∀ r, (safeOrder env st p maxTry).1 = .success r →
        ((orders (safeOrder env st p maxTry).2.2).getLast?).map Prod.snd
            = some (Outcome.ok r)
        ∧ allErr ((orders (safeOrder env st p maxTry).2.2).dropLast) = true) := by
  obtain ⟨h1, h2, _, h4, h5⟩ := safeOrderLoop_retry_spec env maxTry.toNat st p
  exact ⟨h1, h2, h4, h5⟩

/-- C9: called with `maxTry ≤ 0`, the retry loop never iterates: `safeOrder`
returns no result (JavaScript `undefined`), performs no submission and
raises no error. -/
theorem safeOrder_nonpositive_maxTry (env : Env) (st : St) (p : OrderParams)
    (maxTry : Int) (h : maxTry ≤ 0) :
    safeOrder env st p maxTry = (.noResult, st, []) := by
  have h0 : maxTry.toNat = 0 := Int.toNat_of_nonpos h
  rw [safeOrder, h0]
  rfl

theorem safeOrder_nonpositive_maxTry_witness :
    safeOrder envOk st0 pQty2 0 = (.noResult, st0, []) :=
  safeOrder_nonpositive_maxTry envOk st0 pQty2 0 (by norm_num)

/-- C5: a failed attempt whose extracted code is `-2021` has its request
rewritten before the next attempt: the very next submission carries the
same request with `type` forced to `MARKET` and the `price` and
`timeInForce` keys removed. -/
theorem safeOrder_2021_forces_market (env : Env) (st : St) (p : OrderParams)
    (maxTry : Int) (e : ExchangeError) (h2 : 2 ≤ maxTry.toNat)
    (hsub : env.submit st.nOrders p = .err e) (hc : e.code = "-2021") :
    ((orders (safeOrder env st p maxTry).2.2).get? 1).map Prod.fst =
      some { p with type := "MARKET", price := none, timeInForce := none } := by
  have h := safeOrderLoop_orders_second env maxTry.toNat st p e h2 hsub
  have hcorr : (applyCorrection env { st with nOrders := st.nOrders + 1 } p e.code).1
      = { p with type := "MARKET", price := none, timeInForce := none } := by
    rw [hc]
    simp [applyCorrection]
  show ((orders (safeOrderLoop env maxTry.toNat st p).2.2).get? 1).map Prod.fst = _
  rw [h]
  simp [hcorr]

theorem safeOrder_2021_forces_market_witness :
    ((orders (safeOrder envMatch st0 pLimit 3).2.2).get? 1).map Prod.fst =
      some { pLimit with type := "MARKET", price := none, timeInForce := none } :=
  safeOrder_2021_forces_market envMatch st0 pLimit 3
    ⟨"-2021", "order would immediately trigger"⟩ (by norm_num)
    (by decide) rfl

/-- C4 (amended): a failed attempt whose extracted code is `-2019` has its
request's quantity overwritten with the `recomputeQty` result (fresh
balance and mark price, rounded to the symbol's step) before the next
attempt; the new value may coincide with the old one. -/
theorem safeOrder_2019_recomputes_qty (env : Env) (st : St) (p : OrderParams)
    (maxTry : Int) (e : ExchangeError) (h2 : 2 ≤ maxTry.toNat)
    (hsub : env.submit st.nOrders p = .err e) (hc : e.code = "-2019") :
    ((orders (safeOrder env st p maxTry).2.2).get? 1).map Prod.fst =
      some { p with quantity :=
        (recomputeQty env { st with nOrders := st.nOrders + 1 } p.symbol).1.1 }
    ∧ (recomputeQty env { st with nOrders := st.nOrders + 1 } p.symbol).1.1 =
        roundStepVal (env.balance st.nRecomputes * (998 / 1000) / env.mark st.nRecomputes)
          (getExchangeInfo env
            { st with nOrders := st.nOrders + 1, nRecomputes := st.nRecomputes + 1 }
            p.symbol).1.stepSize := by
  constructor
  · have h := safeOrderLoop_orders_second env maxTry.toNat st p e h2 hsub
    have hcorr : (applyCorrection env { st with nOrders := st.nOrders + 1 } p e.code).1
        = { p with quantity :=
            (recomputeQty env { st with nOrders := st.nOrders + 1 } p.symbol).1.1 } := by
      rw [hc]
      simp [applyCorrection]
    show ((orders (safeOrderLoop env maxTry.toNat st p).2.2).get? 1).map Prod.fst = _
    rw [h]
    simp [hcorr]
  · rfl

theorem safeOrder_2019_recomputes_qty_witness :
    ((orders (safeOrder envMargin st0 pQty2 3).2.2).get? 1).map Prod.fst =
      some { pQty2 with quantity :=
        (recomputeQty envMargin { st0 with nOrders := st0.nOrders + 1 } pQty2.symbol).1.1 }
    ∧ (recomputeQty envMargin { st0 with nOrders := st0.nOrders + 1 } pQty2.symbol).1.1 =
        roundStepVal
          (envMargin.balance st0.nRecomputes * (998 / 1000) / envMargin.mark st0.nRecomputes)
          (getExchangeInfo envMargin
            { st0 with nOrders := st0.nOrders + 1, nRecomputes := st0.nRecomputes + 1 }
            pQty2.symbol).1.stepSize :=
  safeOrder_2019_recomputes_qty envMargin st0 pQty2 3
    ⟨"-2019", "margin is insufficient"⟩ (by norm_num) (by decide) rfl

/-- C4 counterexample: against the claim that a `-2019` failure makes the
quantity differ before the next attempt, here the first attempt fails with
code `-2019` and the next submission carries the very same request — the
recomputed quantity (`1000 * 0.998 / 499` rounded at step `1`) equals the
old quantity `2`. -/
theorem safeOrder_2019_qty_unchanged_cex :
    (orders (safeOrder envMargin st0 pQty2 3).2.2).get? 0 =
      some (pQty2, Outcome.err ⟨"-2019", "margin is insufficient"⟩)
    ∧ (orders (safeOrder envMargin st0 pQty2 3).2.2).get? 1 =
      some (pQty2, Outcome.ok "FILLED") := by
  have hsub0 : envMargin.submit st0.nOrders pQty2
      = .err ⟨"-2019", "margin is insufficient"⟩ := by decide
  constructor
  · have hh := safeOrderLoop_orders_head envMargin 3 st0 pQty2 (by norm_num)
    show (orders (safeOrderLoop envMargin 3 st0 pQty2).2.2).get? 0 = _
    rw [List.get?_zero, hh, hsub0]
  · have h2 := safeOrderLoop_orders_second envMargin 3 st0 pQty2
      ⟨"-2019", "margin is insufficient"⟩ (by norm_num) hsub0
    show (orders (safeOrderLoop envMargin 3 st0 pQty2).2.2).get? 1 = _
    rw [h2]
    have hc1 : (applyCorrection envMargin { st0 with nOrders := st0.nOrders + 1 } pQty2
        (ExchangeError.mk "-2019" "margin is insufficient").code).1 = pQty2 := by
      simp [applyCorrection, recomputeQty, getExchangeInfo, lookupCache, envMargin,
        st0, filtInt, roundStepVal, DecNum.val, pQty2]
      norm_num
    rw [hc1]
    have : envMargin.submit (st0.nOrders + 1) pQty2 = Outcome.ok "FILLED" := by decide
    rw [this]

/-- C2: `roundStep(q, step)` computes `floor(q / step) * step`, a multiple
of `step` never exceeding `q` (for a positive step), rendered with exactly
as many decimal digits as `step` has; the rendered numerator agrees with
that value, and concretely `roundStep(0.12345, 0.001) = "0.123"` and
`roundStep(1.0, 1) = "1"`. -/
theorem roundStep_floor_spec (q : ℚ) (step : DecNum) (h : 0 < step.m) :
    roundStepVal q step = (⌊q / step.val⌋ : ℚ) * step.val
    ∧ IsMulOf (roundStepVal q step) step.val
    ∧ roundStepVal q step ≤ q
    ∧ decimalsOf (roundStep q step) = step.d
    ∧ ((⌊q / step.val⌋ * (step.m : Int) : Int) : ℚ) / 10 ^ step.d = roundStepVal q step
    ∧ roundStep (12345 / 100000 : ℚ) ⟨1, 3⟩ = "0.123"
    ∧ roundStep (1 : ℚ) ⟨1, 0⟩ = "1" := by
  have hs : 0 < step.val := DecNum.val_pos step h
  refine ⟨rfl, ⟨⌊q / step.val⌋, rfl⟩, ?_, decimalsOf_renderDec _ _, ?_,
    roundStep_example_small, roundStep_example_one⟩
  · show (⌊q / step.val⌋ : ℚ) * step.val ≤ q
    calc (⌊q / step.val⌋ : ℚ) * step.val
        ≤ (q / step.val) * step.val :=
          mul_le_mul_of_nonneg_right (Int.floor_le _) hs.le
      _ = q := div_mul_cancel₀ q hs.ne'
  · rw [roundStepVal, DecNum.val]
    push_cast
    ring

theorem roundStep_floor_spec_witness :
    0 < (⟨1, 3⟩ : DecNum).m ∧
    (roundStepVal (12345 / 100000 : ℚ) ⟨1, 3⟩
        = (⌊(12345 / 100000 : ℚ) / DecNum.val ⟨1, 3⟩⌋ : ℚ) * DecNum.val ⟨1, 3⟩
    ∧ IsMulOf (roundStepVal (12345 / 100000 : ℚ) ⟨1, 3⟩) (DecNum.val ⟨1, 3⟩)
    ∧ roundStepVal (12345 / 100000 : ℚ) ⟨1, 3⟩ ≤ (12345 / 100000 : ℚ)
    ∧ decimalsOf (roundStep (12345 / 100000 : ℚ) ⟨1, 3⟩) = (⟨1, 3⟩ : DecNum).d
    ∧ ((⌊(12345 / 100000 : ℚ) / DecNum.val ⟨1, 3⟩⌋ * ((⟨1, 3⟩ : DecNum).m : Int) : Int) : ℚ)
          / 10 ^ (⟨1, 3⟩ : DecNum).d
        = roundStepVal (12345 / 100000 : ℚ) ⟨1, 3⟩
    ∧ roundStep (12345 / 100000 : ℚ) ⟨1, 3⟩ = "0.123"
    ∧ roundStep (1 : ℚ) ⟨1, 0⟩ = "1") :=
  ⟨by norm_num, roundStep_floor_spec (12345 / 100000 : ℚ) ⟨1, 3⟩ (by norm_num)⟩

/-- C6: a POST whose payload misses `symbol` or `signal` (or carries them
empty), or whose signal does not upper-case to BUY or SELL, fails with a
validation error before any exchange call: the state is untouched and the
trace is empty. -/
theorem handler_validation_no_calls (env : Env) (st : St) (req : Request)
    (hm : req.method = "POST")
    (hv : (req.body.getD ⟨none, none⟩).symbol = none
        ∨ (req.body.getD ⟨none, none⟩).symbol = some ""
        ∨ (req.body.getD ⟨none, none⟩).signal = none
        ∨ (req.body.getD ⟨none, none⟩).signal = some ""
        ∨ ∀ sg, (req.body.getD ⟨none, none⟩).signal = some sg →
            upperStr sg ≠ "BUY" ∧ upperStr sg ≠ "SELL") :
    ((handler env st req).1 = .fatal "Payload incomplete"
      ∨ (handler env st req).1 = .fatal "Signal must be BUY or SELL")
    ∧ (handler env st req).2.1 = st
    ∧ (handler env st req).2.2 = [] := by
  rcases payloadOrErr_error_cases _ hv with hp | hp <;>
    rw [handler_error_eq env st req _ hm hp] <;> simp

theorem handler_validation_no_calls_witness :
    ((handler envOk st0 reqBad).1 = .fatal "Payload incomplete"
      ∨ (handler envOk st0 reqBad).1 = .fatal "Signal must be BUY or SELL")
    ∧ (handler envOk st0 reqBad).2.1 = st0
    ∧ (handler envOk st0 reqBad).2.2 = [] :=
  handler_validation_no_calls envOk st0 reqBad rfl
    (Or.inr (Or.inr (Or.inr (Or.inr (fun sg hsg => by
      cases hsg
      exact ⟨by decide, by decide⟩)))))

/-- C3: with a fetched position entry of signed amount `a ≠ 0`, the first
exchange call is the position fetch and the second is the submission of
exactly one closing order: side opposite to the sign of `a`, type MARKET,
quantity `|a|`, reduce-only set; with `a = 0` no reduce-only order is ever
submitted. -/
theorem handler_close_order_spec (env : Env) (st : St) (req : Request)
    (symbol side : String) (a : ℚ)
    (hm : req.method = "POST")
    (hp : payloadOrErr (req.body.getD ⟨none, none⟩) = .ok (symbol, side))
    (ha : env.posAmt = some (some a)) :
    (a ≠ 0 → (handler env st req).2.2.get? 0 = some (Call.positionRisk symbol)
      ∧ ((handler env st req).2.2.get? 1).bind callOrderReq
          = some ⟨symbol, if 0 < a then "SELL" else "BUY", "MARKET", |a|, true,
              none, none⟩)
    ∧ (a = 0 → (handler env st req).2.2.all noReduceOrder = true) := by
  have hamt : posAmtOf env = a := by simp [posAmtOf, ha]
  constructor
  · intro hz
    have hz' : ¬ posAmtOf env = 0 := by rw [hamt]; exact hz
    rw [handler_eq_of_ok env st req symbol side hm hp, if_neg hz']
    obtain ⟨r1, hr1⟩ := safeOrderLoop_trace_head env ((3 : Int).toNat) st
      (closeReq symbol (posAmtOf env)) (by norm_num)
    have hcr : closeReq symbol (posAmtOf env)
        = ⟨symbol, if 0 < a then "SELL" else "BUY", "MARKET", |a|, true, none, none⟩ := by
      rw [hamt]
      rfl
    cases hso : (safeOrder env st (closeReq symbol (posAmtOf env)) 3).1 with
    | failure e =>
      constructor
      · rfl
      · show ((Call.positionRisk symbol ::
            (safeOrder env st (closeReq symbol (posAmtOf env)) 3).2.2).get? 1).bind
            callOrderReq = _
        rw [show (safeOrder env st (closeReq symbol (posAmtOf env)) 3).2.2
            = (safeOrderLoop env ((3 : Int).toNat) st (closeReq symbol (posAmtOf env))).2.2
            from rfl, hr1]
        simp [callOrderReq, hcr]
    | success r =>
      rw [handlerRest_trace]
      constructor
      · rfl
      · show (((Call.positionRisk symbol ::
            (safeOrder env st (closeReq symbol (posAmtOf env)) 3).2.2) ++ _).get? 1).bind
            callOrderReq = _
        rw [show (safeOrder env st (closeReq symbol (posAmtOf env)) 3).2.2
            = (safeOrderLoop env ((3 : Int).toNat) st (closeReq symbol (posAmtOf env))).2.2
            from rfl, hr1]
        simp [callOrderReq, hcr]
    | noResult =>
      rw [handlerRest_trace]
      constructor
      · rfl
      · show (((Call.positionRisk symbol ::
            (safeOrder env st (closeReq symbol (posAmtOf env)) 3).2.2) ++ _).get? 1).bind
            callOrderReq = _
        rw [show (safeOrder env st (closeReq symbol (posAmtOf env)) 3).2.2
            = (safeOrderLoop env ((3 : Int).toNat) st (closeReq symbol (posAmtOf env))).2.2
            from rfl, hr1]
        simp [callOrderReq, hcr]
  · intro hz
    have hz' : posAmtOf env = 0 := by rw [hamt, hz]
    rw [handler_eq_of_ok env st req symbol side hm hp, if_pos hz']
    exact (handlerRest_flat_spec env st symbol side).1

theorem handler_close_order_spec_witness :
    ((1 : ℚ) ≠ 0 → (handler envOk st0 reqOk).2.2.get? 0
        = some (Call.positionRisk "BTCUSDT")
      ∧ ((handler envOk st0 reqOk).2.2.get? 1).bind callOrderReq
          = some ⟨"BTCUSDT", if (0 : ℚ) < 1 then "SELL" else "BUY", "MARKET",
              |(1 : ℚ)|, true, none, none⟩)
    ∧ ((1 : ℚ) = 0 → (handler envOk st0 reqOk).2.2.all noReduceOrder = true) :=
  handler_close_order_spec envOk st0 reqOk "BTCUSDT" "BUY" 1 rfl rfl rfl

/-- C10: when the position-risk response has no entry for the symbol (or
the entry has no `positionAmt` field), the handler reads the position as
flat: it submits no reduce-only (closing) order and proceeds to the
leverage call instead of failing. -/
theorem handler_missing_position_flat (env : Env) (st : St) (req : Request)
    (symbol side : String)
    (hm : req.method = "POST")
    (hp : payloadOrErr (req.body.getD ⟨none, none⟩) = .ok (symbol, side))
    (ha : env.posAmt = none ∨ env.posAmt = some none) :
    (handler env st req).2.2.all noReduceOrder = true
    ∧ Call.leverage symbol 1 ∈ (handler env st req).2.2 := by
  have hz : posAmtOf env = 0 := by
    rcases ha with h | h <;> simp [posAmtOf, h]
  rw [handler_eq_of_ok env st req symbol side hm hp, if_pos hz]
  exact handlerRest_flat_spec env st symbol side

theorem handler_missing_position_flat_witness :
    (handler envNoPos st0 reqOk).2.2.all noReduceOrder = true
    ∧ Call.leverage "BTCUSDT" 1 ∈ (handler envNoPos st0 reqOk).2.2 :=
  handler_missing_position_flat envNoPos st0 reqOk "BTCUSDT" "BUY" rfl rfl
    (Or.inl rfl)

/-- C7 (amended): provided no margin-insufficiency (`-2019`) rejection is
answered to a reduce-only submission — i.e. outside the position-close
retries — the leverage call precedes every sizing calculation (every
`recomputeQty` account fetch) in the handler's trace.  The unqualified
claim is false: see the counterexample, where a `-2019` rejection of the
closing order triggers a recomputation before the leverage call. -/
theorem handler_leverage_before_sizing (env : Env) (st : St) (req : Request)
    (hro : ∀ n q e, q.reduceOnly = true → env.submit n q = .err e →
      e.code ≠ "-2019") :
    levBeforeSizing false (handler env st req).2.2 = true := by
  by_cases hm : req.method = "POST"
  · rcases hp : payloadOrErr (req.body.getD ⟨none, none⟩) with m | ⟨symbol, side⟩
    · rw [handler_error_eq env st req m hm hp]
      rfl
    · by_cases hz : posAmtOf env = 0
      · rw [handler_eq_of_ok env st req symbol side hm hp, if_pos hz,
          handlerRest_trace]
        refine levBeforeSizing_append _ _ (by simp) ?_
        show levBeforeSizing true _ = true
        exact levBeforeSizing_true _
      · rw [handler_eq_of_ok env st req symbol side hm hp, if_neg hz]
        have hacc : Call.account ∉
            (safeOrder env st (closeReq symbol (posAmtOf env)) 3).2.2 :=
          safeOrderLoop_no_account env hro _ st _ rfl
        have haccCons : Call.account ∉ Call.positionRisk symbol ::
            (safeOrder env st (closeReq symbol (posAmtOf env)) 3).2.2 := by
          intro hmem
          rcases List.mem_cons.mp hmem with h | h
          · simp at h
          · exact hacc h
        cases hso : (safeOrder env st (closeReq symbol (posAmtOf env)) 3).1 with
        | failure e =>
          exact levBeforeSizing_no_account _ haccCons false
        | success r =>
          rw [handlerRest_trace]
          refine levBeforeSizing_append _ _ haccCons ?_
          show levBeforeSizing true _ = true
          exact levBeforeSizing_true _
        | noResult =>
          rw [handlerRest_trace]
          refine levBeforeSizing_append _ _ haccCons ?_
          show levBeforeSizing true _ = true
          exact levBeforeSizing_true _
  · unfold handler
    rw [if_pos hm]
    rfl

theorem handler_leverage_before_sizing_witness :
    levBeforeSizing false (handler envOk st0 reqOk).2.2 = true :=
  handler_leverage_before_sizing envOk st0 reqOk
    (fun n q e hq hsub => by simp [envOk] at hsub)

/-- C7 counterexample: with an open position and an exchange that rejects
the closing order with code `-2019`, the handler's trace contains an
account fetch (the start of a `recomputeQty` sizing calculation) before
any leverage call, refuting the claim that leverage is set to 1 before
every sizing calculation. -/
theorem handler_sizing_before_leverage_cex :
    levBeforeSizing false (handler envMargin st0 reqOk).2.2 = false := by
  have hm : reqOk.method = "POST" := rfl
  have hp : payloadOrErr (reqOk.body.getD ⟨none, none⟩) = .ok ("BTCUSDT", "BUY") := rfl
  have hz : ¬ posAmtOf envMargin = 0 := by
    simp [posAmtOf, envMargin]
  rw [handler_eq_of_ok envMargin st0 reqOk "BTCUSDT" "BUY" hm hp, if_neg hz]
  have hsub : envMargin.submit st0.nOrders (closeReq "BTCUSDT" (posAmtOf envMargin))
      = .err ⟨"-2019", "margin is insufficient"⟩ := by decide
  have hacc : Call.account ∈
      (safeOrder envMargin st0 (closeReq "BTCUSDT" (posAmtOf envMargin)) 3).2.2 :=
    safeOrderLoop_account_mem envMargin 2 st0
      (closeReq "BTCUSDT" (posAmtOf envMargin))
      ⟨"-2019", "margin is insufficient"⟩ hsub rfl
  have hlevCons : ∀ s l, Call.leverage s l ∉ Call.positionRisk "BTCUSDT" ::
      (safeOrder envMargin st0 (closeReq "BTCUSDT" (posAmtOf envMargin)) 3).2.2 := by
    intro s l hmem
    rcases List.mem_cons.mp hmem with h | h
    · simp at h
    · exact safeOrderLoop_no_leverage envMargin _ st0 _ s l h
  have haccCons : Call.account ∈ Call.positionRisk "BTCUSDT" ::
      (safeOrder envMargin st0 (closeReq "BTCUSDT" (posAmtOf envMargin)) 3).2.2 :=
    List.mem_cons_of_mem _ hacc
  cases hso : (safeOrder envMargin st0 (closeReq "BTCUSDT" (posAmtOf envMargin)) 3).1 with
  | failure e =>
    have := levBeforeSizing_false_of_early_account _ [] hlevCons haccCons
    simpa using this
  | success r =>
    rw [handlerRest_trace]
    exact levBeforeSizing_false_of_early_account _ _ hlevCons haccCons
  | noResult =>
    rw [handlerRest_trace]
    exact levBeforeSizing_false_of_early_account _ _ hlevCons haccCons

/-- C8: the first `getExchangeInfo` call for a symbol performs exactly one
network fetch and stores the resulting filter; a second call on the
resulting state returns the identical stored filter with no fetch; an
already-cached symbol is answered from the cache with state and trace
untouched; and across a whole handler run — or two consecutive runs
sharing the process state — the fetch count per symbol never exceeds 1. -/
theorem exchangeInfo_cached_once (env : Env) :
    (∀ st s, lookupCache st.cache s = none →
      (getExchangeInfo env st s).2.2 = [Call.exchangeInfo s]
      ∧ lookupCache (getExchangeInfo env st s).2.1.cache s
          = some (getExchangeInfo env st s).1)
    ∧ (∀ st s f₀, lookupCache st.cache s = some f₀ →
        getExchangeInfo env st s = (f₀, st, []))
    ∧ (∀ st s, getExchangeInfo env (getExchangeInfo env st s).2.1 s
        = ((getExchangeInfo env st s).1, (getExchangeInfo env st s).2.1, []))
    ∧ (∀ st req s, countInfo s (handler env st req).2.2 ≤ 1)
    ∧ (∀ st req req' s,
        countInfo s (handler env st req).2.2
          + countInfo s (handler env (handler env st req).2.1 req').2.2 ≤ 1) := by
  refine ⟨?_, ?_, ?_, ?_, ?_⟩
  · intro st s hl
    simp [getExchangeInfo, hl, lookupCache]
  · intro st s f₀ hl
    simp [getExchangeInfo, hl]
  · intro st s
    rcases hl : lookupCache st.cache s with _ | f
    · have hcached : lookupCache (getExchangeInfo env st s).2.1.cache s
          = some (env.info s) := by
        simp [getExchangeInfo, hl, lookupCache]
      have hfst : (getExchangeInfo env st s).1 = env.info s := by
        simp [getExchangeInfo, hl]
      rw [getExchangeInfo, hcached, hfst]
    · have hst : (getExchangeInfo env st s).2.1 = st := by
        simp [getExchangeInfo, hl]
      have hfst : (getExchangeInfo env st s).1 = f := by
        simp [getExchangeInfo, hl]
      rw [hst, hfst]
      simp [getExchangeInfo, hl]
  · intro st req s
    exact (handler_infoInv env st req s).1
  · intro st req req' s
    have h := infoInv_comp _ _ _ _ _ (handler_infoInv env st req)
      (handler_infoInv env (handler env st req).2.1 req')
    have h1 := (h s).1
    rwa [countInfo_append] at h1

end Webhook
